import Mathlib

/-!
Verification development for `airflow/contrib/operators/mysql_to_gcs.py`
(`MySqlToGoogleCloudStorageOperator`).

The Python module is shallowly embedded below: Python scalar values become the
inductive `PyVal` (tagged with enough class information to reflect Python's
`type(...)`/`isinstance(...)` dispatch), the MySQLdb cursor `description`
becomes `FieldDesc`, the `export_format` dict becomes `ExportFormat`, and the
row-writing loop of `_write_local_data_files` becomes the structural recursion
`runRows`.  Fallible Python operations (`eval` of the header flag,
`json.dumps` of a non-serializable value) are embedded as `Option`-valued
functions, `none` standing for a raised exception.
-/

namespace MySqlToGcs

/-! ## Python values -/

/-- Calendar fields of a Python `datetime.date`. -/
structure DateFields where
  year : Nat
  month : Nat
  day : Nat
deriving DecidableEq, Repr

/-- Calendar and clock fields of a Python `datetime.datetime`, at the
granularity of `timetuple()` (microseconds do not survive `timetuple()`, so
they are not carried). -/
structure DateTimeFields where
  year : Nat
  month : Nat
  day : Nat
  hour : Nat
  minute : Nat
  second : Nat
deriving DecidableEq, Repr

/-- A Python scalar value as it can appear in a MySQLdb result row.  The
`strictSubclass` flag on `pyDatetime`, `pyDate` and `pyDecimal` records
whether the runtime class of the object is a strict subclass of
`datetime.datetime` / `datetime.date` / `decimal.Decimal` (`false` means the
class is exactly that type): `convert_types` dispatches on `type(value)` for
dates and on `isinstance` for decimals, so the flag is observable.  Python
floats are modelled by their exact numeric value as a rational; no proved
theorem depends on IEEE rounding of a float. -/
inductive PyVal where
  | pyNone
  | pyBool (b : Bool)
  | pyInt (n : Int)
  | pyFloat (q : ℚ)
  | pyStr (s : String)
  | pyDatetime (strictSubclass : Bool) (t : DateTimeFields)
  | pyDate (strictSubclass : Bool) (d : DateFields)
  | pyDecimal (strictSubclass : Bool) (q : ℚ)
deriving DecidableEq, Repr

/-! ## Type Converter: `convert_types` (mysql_to_gcs.py lines 322-334) -/

/-- Days from 1970-01-01 of a civil date (proleptic Gregorian), the standard
civil-from-days algorithm with truncating integer division; this is the
calendar arithmetic underlying `time.mktime(value.timetuple())` with the
process timezone taken as UTC (the module treats the naive calendar fields as
wall-clock; see the module doc about timezone). -/
def daysFromCivil (y m d : Int) : Int :=
  let y' := if m ≤ 2 then y - 1 else y
  let era := (if 0 ≤ y' then y' else y' - 399) / 400
  let yoe := y' - era * 400
  let mp := if 2 < m then m - 3 else m + 9
  let doy := (153 * mp + 2) / 5 + d - 1
  let doe := yoe * 365 + yoe / 4 - yoe / 100 + doy
  era * 146097 + doe - 719468

/-- Python `time.mktime` applied to a 6-field time tuple (epoch seconds; the result
is an integral-valued float in Python, carried here as the integer). -/
def mktimeTuple (t : DateTimeFields) : Int :=
  daysFromCivil t.year t.month t.day * 86400
    + (t.hour : Int) * 3600 + (t.minute : Int) * 60 + (t.second : Int)

/-- Python `date.timetuple()`: the clock fields are zero. -/
def dateTimetuple (d : DateFields) : DateTimeFields :=
  { year := d.year, month := d.month, day := d.day,
    hour := 0, minute := 0, second := 0 }

/-- Test `type(value) in (datetime, date)`: an exact-type membership test, so
instances of strict subclasses of `datetime` or `date` do not pass it. -/
def typeIsExactlyDatetimeOrDate : PyVal → Bool
  | .pyDatetime false _ => true
  | .pyDate false _ => true
  | _ => false

/-- Test `isinstance(value, Decimal)`: also true for instances of subclasses. -/
def isDecimalInstance : PyVal → Bool
  | .pyDecimal _ _ => true
  | _ => false

/-- Python float holding the value of an int (the result type of
`time.mktime`). -/
def floatOfInt (n : Int) : ℚ := (n : ℚ)

/-- Function `convert_types` (lines 322-334): values whose type is exactly `datetime`
or `date` become `time.mktime(value.timetuple())`, `Decimal` instances become
`float(value)` (modelled by the decimal's exact value; no proved claim depends
on the double rounding of `float(Decimal)`), everything else is returned
unchanged. -/
def convert_types : PyVal → PyVal
  | .pyDatetime false t => .pyFloat (floatOfInt (mktimeTuple t))
  | .pyDate false d => .pyFloat (floatOfInt (mktimeTuple (dateTimetuple d)))
  | .pyDecimal _ q => .pyFloat q
  | v => v

/-! ## `MySQLdb.constants.FIELD_TYPE` (external library constants)

Integer codes of the MySQL wire protocol, as exported by the `MySQLdb`
dependency that the module imports. -/

namespace FIELD_TYPE

def DECIMAL : Int := 0

def TINY : Int := 1

def SHORT : Int := 2

def LONG : Int := 3

def FLOAT : Int := 4

def DOUBLE : Int := 5

def TIMESTAMP : Int := 7

def LONGLONG : Int := 8

def INT24 : Int := 9

def DATE : Int := 10

def DATETIME : Int := 12

def YEAR : Int := 13

def BIT : Int := 16

def NEWDECIMAL : Int := 246

end FIELD_TYPE

/-- The dict literal `d` of `type_map` (lines 342-358), in source order.  The
source lists `INT24` twice with the same value; a Python dict literal keeps
the last binding, an association-list lookup finds the first — both give
`'INTEGER'`, so the duplicate is harmless. -/
def type_map_table : List (Int × String) :=
  [(FIELD_TYPE.INT24, "INTEGER"),
   (FIELD_TYPE.TINY, "INTEGER"),
   (FIELD_TYPE.BIT, "INTEGER"),
   (FIELD_TYPE.DATETIME, "TIMESTAMP"),
   (FIELD_TYPE.DATE, "TIMESTAMP"),
   (FIELD_TYPE.DECIMAL, "FLOAT"),
   (FIELD_TYPE.NEWDECIMAL, "FLOAT"),
   (FIELD_TYPE.DOUBLE, "FLOAT"),
   (FIELD_TYPE.FLOAT, "FLOAT"),
   (FIELD_TYPE.INT24, "INTEGER"),
   (FIELD_TYPE.LONG, "INTEGER"),
   (FIELD_TYPE.LONGLONG, "INTEGER"),
   (FIELD_TYPE.SHORT, "INTEGER"),
   (FIELD_TYPE.TIMESTAMP, "TIMESTAMP"),
   (FIELD_TYPE.YEAR, "INTEGER")]

/-- Function `type_map` (lines 336-359):
`d[mysql_type] if mysql_type in d else 'STRING'`. -/
def type_map (mysql_type : Int) : String :=
  match type_map_table.lookup mysql_type with
  | some s => s
  | none => "STRING"

/-! ## Cursor metadata -/

/-- One entry of the PEP 249 `cursor.description` sequence, restricted to the
components the module reads: `field[0]` (name), `field[1]` (type code) and
`field[6]` (null_ok). -/
structure FieldDesc where
  name : String
  type_code : Int
  null_ok : Bool
deriving DecidableEq, Repr

/-! ## String infrastructure

Python strings are sequences of Unicode code points; Lean's `String` (a list
of `Char`) models them directly.  The helpers below are written with
structural recursion only, so that concrete runs of the embedding reduce
inside the kernel. -/

/-- Python string comparison `a <= b`: lexicographic on code points. -/
def charListLe : List Char → List Char → Bool
  | [], _ => true
  | _ :: _, [] => false
  | a :: as, b :: bs =>
    if a.toNat < b.toNat then true
    else if b.toNat < a.toNat then false
    else charListLe as bs

/-- Python `<=` on strings (used by `sorted` under `json.dumps(sort_keys=True)`). -/
def pyStrLe (a b : String) : Bool := charListLe a.data b.data

/-- The decimal digit characters, `str(n)[:]` for `n < 10` (the catch-all arm
is never reached by the callers below, which only pass values `< 10`). -/
def digitChar : Nat → Char
  | 0 => '0'
  | 1 => '1'
  | 2 => '2'
  | 3 => '3'
  | 4 => '4'
  | 5 => '5'
  | 6 => '6'
  | 7 => '7'
  | 8 => '8'
  | 9 => '9'
  | _ => '0'

/-- Big-endian decimal digits of `n`, fuel-structured so that it reduces in
the kernel; any `fuel > n` is enough. -/
def natDigitsAux : Nat → Nat → List Char
  | 0, _ => []
  | fuel + 1, n =>
    if n < 10 then [digitChar n]
    else natDigitsAux fuel (n / 10) ++ [digitChar (n % 10)]

/-- Decimal rendering of a natural number, Python `str()` of a nonnegative
int. -/
def natStr (n : Nat) : String := String.mk (natDigitsAux (n + 1) n)

/-- Python `str()` of an int. -/
def intRepr (n : Int) : String :=
  if n < 0 then "-" ++ natStr n.natAbs else natStr n.toNat

/-- Decimal digits of the fractional part `q ∈ [0, 1)`, one digit per unit of
fuel, stopping early when the remainder is zero. -/
def fracDigits : Nat → ℚ → List Char
  | 0, _ => []
  | fuel + 1, q =>
    if q = 0 then []
    else
      let d := (q * 10).floor.toNat
      digitChar d :: fracDigits fuel (q * 10 - (d : ℚ))

/-- Rendering of a Python float value (`repr`/`str`), by sign, integer part
and decimal expansion of the fractional part: faithful for the terminating
expansions the module produces (`mktime` results are integral, rendered as
"123.0").  The shortest-round-trip digits Python prints for a general double
are not modelled; no proved claim inspects the digits of a float. -/
def floatRepr (q : ℚ) : String :=
  let sign := if q < 0 then "-" else ""
  let a := |q|
  let ip := a.floor.toNat
  let fp := a - (ip : ℚ)
  sign ++ natStr ip ++ "." ++ (if fp = 0 then "0" else String.mk (fracDigits 17 fp))

/-- Python `sep.join(parts)`. -/
def joinSep (sep : String) : List String → String
  | [] => ""
  | [x] => x
  | x :: y :: xs => x ++ sep ++ joinSep sep (y :: xs)

/-! ## JSON serialization: `json.dumps(row_dict, sort_keys=True)`
(mysql_to_gcs.py lines 236-245), with the CPython defaults
`ensure_ascii=True`, separators `", "` and `": "`. -/

/-- Lowercase hexadecimal digit characters. -/
def hexDigitChar : Nat → Char
  | 0 => '0'
  | 1 => '1'
  | 2 => '2'
  | 3 => '3'
  | 4 => '4'
  | 5 => '5'
  | 6 => '6'
  | 7 => '7'
  | 8 => '8'
  | 9 => '9'
  | 10 => 'a'
  | 11 => 'b'
  | 12 => 'c'
  | 13 => 'd'
  | 14 => 'e'
  | 15 => 'f'
  | _ => '0'

/-- Four hex digits of `n < 0x10000`. -/
def hex4 (n : Nat) : List Char :=
  [hexDigitChar (n / 4096 % 16), hexDigitChar (n / 256 % 16),
   hexDigitChar (n / 16 % 16), hexDigitChar (n % 16)]

/-- The escape sequence `json.dumps` (with `ensure_ascii=True`) emits for one
character of a string: short escapes for the common control characters,
`\uXXXX` for the other control characters and all non-ASCII characters
(surrogate pairs above the basic plane), the character itself otherwise. -/
def jsonEscapeChar (c : Char) : List Char :=
  if c = '"' then ['\\', '"']
  else if c = '\\' then ['\\', '\\']
  else if c = '\n' then ['\\', 'n']
  else if c = '\r' then ['\\', 'r']
  else if c = '\t' then ['\\', 't']
  else if c.toNat = 8 then ['\\', 'b']
  else if c.toNat = 12 then ['\\', 'f']
  else if c.toNat < 32 then '\\' :: 'u' :: hex4 c.toNat
  else if c.toNat < 127 then [c]
  else if c.toNat < 65536 then '\\' :: 'u' :: hex4 c.toNat
  else
    ('\\' :: 'u' :: hex4 (55296 + (c.toNat - 65536) / 1024))
      ++ ('\\' :: 'u' :: hex4 (56320 + (c.toNat - 65536) % 1024))

/-- JSON string literal for `s`: quoted and escaped. -/
def jsonQuote (s : String) : String :=
  String.mk ('"' :: s.data.foldr (fun c acc => jsonEscapeChar c ++ acc) ['"'])

/-- JSON rendering of one Python value.  `json.dumps` raises `TypeError` on
values it cannot serialize — in this module `datetime`, `date` and `Decimal`
objects (which `convert_types` removes before serialization when their type
matches) — modelled by `none`. -/
def jsonValRepr : PyVal → Option String
  | .pyNone => some "null"
  | .pyBool true => some "true"
  | .pyBool false => some "false"
  | .pyInt n => some (intRepr n)
  | .pyFloat q => some (floatRepr q)
  | .pyStr s => some (jsonQuote s)
  | .pyDatetime _ _ => none
  | .pyDate _ _ => none
  | .pyDecimal _ _ => none

/-- Python `dict(zip(schema, row))`: keys keep the position of their first
occurrence, a repeated key keeps the last value. -/
def dictInsert (ps : List (String × PyVal)) (p : String × PyVal) :
    List (String × PyVal) :=
  if ps.any (fun q => q.1 == p.1) then
    ps.map (fun q => if q.1 == p.1 then (q.1, p.2) else q)
  else ps ++ [p]

/-- Association list of a Python dict built from a pair list. -/
def dictOfPairs (l : List (String × PyVal)) : List (String × PyVal) :=
  l.foldl dictInsert []

/-- Key order used by `sort_keys=True`: Python `<=` on the key strings. -/
def keyLe (a b : String × PyVal) : Prop := pyStrLe a.1 b.1 = true

instance : DecidableRel keyLe := fun a b => instDecidableEqBool (pyStrLe a.1 b.1) true

/-- One `"key": value` member of a serialized JSON object. -/
def jsonMember (p : String × PyVal) : Option String :=
  (jsonValRepr p.2).map (fun v => jsonQuote p.1 ++ ": " ++ v)

/-- Serialization of all members of an object, `none` when any value is not
JSON serializable. -/
def jsonMembers : List (String × PyVal) → Option (List String)
  | [] => some []
  | p :: ps =>
    match jsonMember p, jsonMembers ps with
    | some m, some ms => some (m :: ms)
    | _, _ => none

/-- Serialization `json.dumps` of a dict with `sort_keys=True`: members sorted by key,
joined with `", "`, wrapped in braces; `none` when some value is not JSON
serializable. -/
def jsonDumpsObj (ps : List (String × PyVal)) : Option String :=
  (jsonMembers (List.insertionSort keyLe (dictOfPairs ps))).map
    (fun ms => "\x7b" ++ joinSep ", " ms ++ "\x7d")

/-! ## CSV encoding: `csv_writer.writerow` (unicodecsv)

The module registers a dialect from `export_format` with the source defaults
(delimiter `,`, doublequote, no escapechar, lineterminator CRLF, quotechar
`"`, QUOTE_MINIMAL) unless `csv_dialect` names a preset (lines 191-216).
This embedding holds the dialect fixed at those defaults; no claim below is
about a non-default dialect. -/

/-- Stringification `str()` of a cell value as the csv writer stringifies it: `None` becomes
the empty field, booleans `True`/`False`, numbers their decimal rendering,
`datetime`/`date` their ISO-like forms.  The printable form of a `Decimal`
depends on internal state (exponent) that the rational payload does not
carry, so it is left outside the model (`none`); it is unreachable in the
pipeline because `convert_types` turns every `Decimal` instance into a float
first. -/
def pad2 (n : Nat) : String := if n < 10 then "0" ++ natStr n else natStr n

/-- Python `str(date(...))`: "YYYY-MM-DD" (4-digit years in the module's use). -/
def dateStr (d : DateFields) : String :=
  natStr d.year ++ "-" ++ pad2 d.month ++ "-" ++ pad2 d.day

/-- Python `str(datetime(...))`: "YYYY-MM-DD HH:MM:SS" (microseconds zero). -/
def datetimeStr (t : DateTimeFields) : String :=
  natStr t.year ++ "-" ++ pad2 t.month ++ "-" ++ pad2 t.day ++ " "
    ++ pad2 t.hour ++ ":" ++ pad2 t.minute ++ ":" ++ pad2 t.second

def csvCellStr : PyVal → Option String
  | .pyNone => some ""
  | .pyBool true => some "True"
  | .pyBool false => some "False"
  | .pyInt n => some (intRepr n)
  | .pyFloat q => some (floatRepr q)
  | .pyStr s => some s
  | .pyDatetime _ t => some (datetimeStr t)
  | .pyDate _ d => some (dateStr d)
  | .pyDecimal _ _ => none

/-- QUOTE_MINIMAL: a field is quoted iff it contains the delimiter, the
quotechar, or a line-break character. -/
def csvNeedsQuote (s : String) : Bool :=
  s.data.any (fun c => c == ',' || c == '"' || c == '\r' || c == '\n')

/-- Quote a field: wrap in quotechars, doubling embedded quotechars. -/
def csvQuoteField (s : String) : String :=
  String.mk ('"' :: s.data.foldr
    (fun c acc => if c == '"' then '"' :: '"' :: acc else c :: acc) ['"'])

def csvField (s : String) : String :=
  if csvNeedsQuote s then csvQuoteField s else s

/-- Encoding `writerow(cells)` under the default dialect: fields joined by the
delimiter, terminated by CRLF, UTF-8 encoded. -/
def csvEncodeRow (cells : List String) : String :=
  joinSep "," (cells.map csvField) ++ "\r\n"

/-! ## The `export_format` dict and the header flag -/

/-- The `export_format` dict, restricted to the keys this embedding reads:
`file_format` (always present in the module's use) and `csv_columnheader`
(`none` models the key being absent).  The `csv_*` dialect keys are held at
the source defaults, see above. -/
structure ExportFormat where
  file_format : String
  csv_columnheader : Option String := none
deriving DecidableEq, Repr

/-- Truthiness of Python `eval` applied to the header-flag string
(`eval(self.export_format['csv_columnheader'])`, lines 222-223 and 259-260),
on the literal fragment this embedding covers: the constants `True`, `False`,
`None` and the digit literals `0` and `1`.  `none` stands for a string
outside the fragment (arbitrary expression or a raised exception). -/
def pyEvalTruthy (s : String) : Option Bool :=
  if s = "True" then some true
  else if s = "False" then some false
  else if s = "None" then some false
  else if s = "0" then some false
  else if s = "1" then some true
  else none

/-- Whether a header row is written, per the source condition
`'csv_columnheader' in self.export_format and eval(...)`, which is only
evaluated in the CSV branch; in JSON mode no header is ever considered. -/
def headerFlag (fmt : ExportFormat) : Option Bool :=
  if fmt.file_format = "csv" then
    match fmt.csv_columnheader with
    | none => some false
    | some s => pyEvalTruthy s
  else some false

/-! ## Split-file writer: `_write_local_data_files` (lines 172-263) -/

/-- UTF-8 byte count of one character. -/
def charUtf8Bytes (c : Char) : Nat :=
  if c.toNat < 128 then 1
  else if c.toNat < 2048 then 2
  else if c.toNat < 65536 then 3
  else 4

/-- UTF-8 byte count of a string: what one `write` adds to `tell()`. -/
def strBytes (s : String) : Nat := (s.data.map charUtf8Bytes).sum

/-- Python `tmp_file_handle.tell()`: total bytes written to the current file. -/
def tell (chunks : List String) : Nat := (chunks.map strBytes).sum

/-- The `filename` parameter with its single positional `\x7b\x7d`
placeholder (the documented contract of the parameter): `subst i` is
`self.filename.format(i)`. -/
structure Template where
  pre : String
  post : String
deriving DecidableEq, Repr

def Template.subst (t : Template) (i : Nat) : String :=
  t.pre ++ natStr i ++ t.post

/-- The operator attributes `_write_local_data_files` reads. -/
structure WriterCfg where
  filename : Template
  approx_max_file_size_bytes : Nat
  export_format : ExportFormat
deriving DecidableEq, Repr

/-- Loop state: the next file index to assign on rollover is `fileNo`
after the increments so far; `finished` holds the dict entries for files no
longer current (in insertion order); `cur` is the chunks written to the
current file. -/
structure WState where
  fileNo : Nat
  finished : List (String × List String)
  cur : List String
deriving DecidableEq, Repr

/-- Contents a fresh data file starts with: the column-name row when in CSV
mode with the header flag evaluated truthy (lines 222-224 for file 0, lines
255-261 after a rollover), nothing otherwise. -/
def initChunks (hdr : Bool) (fmt : ExportFormat) (schema : List String) :
    List String :=
  if fmt.file_format = "csv" ∧ hdr = true then [csvEncodeRow schema] else []

/-- Encode one row (lines 226-245): `convert_types` over the cells, then the
CSV row or the JSON line `json.dumps(dict(zip(schema, row)), sort_keys=True)`
followed by the newline byte.  `none` models a raised serialization error. -/
def encodeRow (fmt : ExportFormat) (schema : List String) (row : List PyVal) :
    Option String :=
  let row' := row.map convert_types
  if fmt.file_format = "csv" then
    (row'.mapM csvCellStr).map csvEncodeRow
  else
    (jsonDumpsObj (schema.zip row')).map (fun s => s ++ "\n")

/-- One iteration of the row loop after the row was encoded: append the
chunk, then the after-write rollover check `tell() >= approx_max_file_size_bytes`
(line 248); on rollover the current file is sealed under the key
`self.filename.format(file_no)` it was opened with, and a fresh file (with
header, in CSV-with-header mode) becomes current. -/
def stepRow (cfg : WriterCfg) (hdr : Bool) (schema : List String)
    (st : WState) (chunk : String) : WState :=
  let cur' := st.cur ++ [chunk]
  if cfg.approx_max_file_size_bytes ≤ tell cur' then
    { fileNo := st.fileNo + 1,
      finished := st.finished ++ [(cfg.filename.subst st.fileNo, cur')],
      cur := initChunks hdr cfg.export_format schema }
  else
    { st with cur := cur' }

/-- The `for row in cursor` loop. -/
def runRows (cfg : WriterCfg) (hdr : Bool) (schema : List String) :
    WState → List (List PyVal) → Option WState
  | st, [] => some st
  | st, row :: rows =>
    match encodeRow cfg.export_format schema row with
    | none => none
    | some chunk => runRows cfg hdr schema (stepRow cfg hdr schema st chunk) rows

/-- Function `_write_local_data_files`: the returned dict, as the insertion-ordered
list of (object name, file chunks).  The current (last-created) file is in
the dict from its creation; its final contents are what the loop left in it. -/
def _write_local_data_files (cfg : WriterCfg) (description : List FieldDesc)
    (rows : List (List PyVal)) : Option (List (String × List String)) :=
  let schema := description.map (fun f => f.name)
  match headerFlag cfg.export_format with
  | none => none
  | some hdr =>
    match runRows cfg hdr schema
        { fileNo := 0, finished := [], cur := initChunks hdr cfg.export_format schema }
        rows with
    | none => none
    | some st => some (st.finished ++ [(cfg.filename.subst st.fileNo, st.cur)])

/-! ## Schema file: `_write_local_schema_file` (lines 265-306) -/

/-- The `schema` parameter: absent, a pre-serialized string blob, or an
explicit list of field dicts. -/
structure SchemaField where
  name : String
  type : String
  mode : String
deriving DecidableEq, Repr

inductive SchemaCfg where
  | noSchema
  | blob (s : String)
  | explicitFields (l : List SchemaField)
deriving DecidableEq, Repr

/-- Inference of one schema entry from a `cursor.description` field (lines
283-298): the BigQuery type via `type_map`, and mode NULLABLE iff
`field[6] or field_type == 'TIMESTAMP'`. -/
def inferField (f : FieldDesc) : SchemaField :=
  let field_type := type_map f.type_code
  { name := f.name,
    type := field_type,
    mode := if f.null_ok = true ∨ field_type = "TIMESTAMP"
            then "NULLABLE" else "REQUIRED" }

/-- Serialization `json.dumps` of one schema dict under `sort_keys=True`: the keys
`mode`, `name`, `type` in sorted order. -/
def schemaFieldJson (f : SchemaField) : String :=
  "\x7b" ++ jsonQuote "mode" ++ ": " ++ jsonQuote f.mode
    ++ ", " ++ jsonQuote "name" ++ ": " ++ jsonQuote f.name
    ++ ", " ++ jsonQuote "type" ++ ": " ++ jsonQuote f.type ++ "\x7d"

/-- Serialization `json.dumps` of the schema list. -/
def schemaListJson (l : List SchemaField) : String :=
  "[" ++ joinSep ", " (l.map schemaFieldJson) ++ "]"

/-- Function `_write_local_schema_file`: the (object name, file content) pair it
returns.  A string blob is written verbatim (lines 276-278); an explicit
list, or the list inferred from `cursor.description`, is serialized (lines
279-303). -/
def _write_local_schema_file (schema_filename : String) (schema : SchemaCfg)
    (description : List FieldDesc) : String × String :=
  match schema with
  | .blob s => (schema_filename, s)
  | .explicitFields l => (schema_filename, schemaListJson l)
  | .noSchema => (schema_filename, schemaListJson (description.map inferField))

/-! ## Orchestration: the file set `execute` uploads (lines 144-156) -/

/-- Python dict update with one key: replace in place when the key exists,
append otherwise. -/
def dictUpdate (d : List (String × List String)) (k : String)
    (v : List String) : List (String × List String) :=
  if d.any (fun p => p.1 == k) then
    d.map (fun p => if p.1 == k then (k, v) else p)
  else d ++ [(k, v)]

/-- The finalized file set: the data files, then (when a schema filename is
configured) the schema file merged in by `files_to_upload.update(...)`. -/
def execute_files (cfg : WriterCfg) (schema_filename : Option String)
    (schema : SchemaCfg) (description : List FieldDesc)
    (rows : List (List PyVal)) : Option (List (String × List String)) :=
  match _write_local_data_files cfg description rows with
  | none => none
  | some fs =>
    match schema_filename with
    | none => some fs
    | some fn =>
      let p := _write_local_schema_file fn schema description
      some (dictUpdate fs p.1 [p.2])

/-! ## Helper lemmas -/

lemma digitChar_toNat {n : Nat} (h : n < 10) : (digitChar n).toNat = 48 + n := by
  interval_cases n <;> decide

/-- Value of the digit list under the base-10 left fold, starting from `a`. -/
def digitsVal (a : Nat) (l : List Char) : Nat :=
  l.foldl (fun x c => x * 10 + (c.toNat - 48)) a

lemma digitsVal_natDigitsAux :
    ∀ (fuel n a : Nat), n < fuel →
      digitsVal a (natDigitsAux fuel n) =
        a * 10 ^ (natDigitsAux fuel n).length + n := by
  intro fuel
  induction fuel with
  | zero => intro n a h; omega
  | succ fuel ih =>
    intro n a h
    by_cases h10 : n < 10
    · simp only [natDigitsAux, if_pos h10]
      simp [digitsVal, digitChar_toNat h10]
    · have hd : n / 10 < fuel := by omega
      simp only [natDigitsAux, if_neg h10]
      have hmod : n % 10 < 10 := by omega
      simp only [digitsVal, List.foldl_append, List.length_append, List.foldl_cons,
        List.foldl_nil, List.length_cons, List.length_nil]
      have := ih (n / 10) a hd
      simp only [digitsVal] at this
      rw [this, digitChar_toNat hmod, pow_succ]
      have hn : 10 * (n / 10) + n % 10 = n := Nat.div_add_mod n 10
      set L := (natDigitsAux fuel (n / 10)).length
      have : a * 10 ^ L * 10 = a * (10 ^ L * 10) := by ring
      omega

lemma natStr_inj : Function.Injective natStr := by
  intro m k h
  have hdata : natDigitsAux (m + 1) m = natDigitsAux (k + 1) k :=
    congrArg String.data h
  have hm := digitsVal_natDigitsAux (m + 1) m 0 (by omega)
  have hk := digitsVal_natDigitsAux (k + 1) k 0 (by omega)
  rw [hdata] at hm
  rw [hm] at hk
  omega

lemma subst_inj (t : Template) : Function.Injective t.subst := by
  intro i j h
  apply natStr_inj
  apply String.ext
  have h' := congrArg String.data h
  simp only [Template.subst, String.data_append, List.append_assoc] at h'
  exact List.append_cancel_right (List.append_cancel_left h')

lemma charListLe_total : ∀ as bs : List Char,
    charListLe as bs = true ∨ charListLe bs as = true := by
  intro as
  induction as with
  | nil => intro bs; left; rfl
  | cons a as ih =>
    intro bs
    cases bs with
    | nil => right; rfl
    | cons b bs =>
      by_cases h1 : a.toNat < b.toNat
      · left; simp [charListLe, h1]
      · by_cases h2 : b.toNat < a.toNat
        · right; simp [charListLe, h2]
        · rcases ih bs with h | h
          · left; simp [charListLe, h1, h2, h]
          · right; simp [charListLe, h1, h2, h]

lemma charListLe_trans : ∀ as bs cs : List Char,
    charListLe as bs = true → charListLe bs cs = true →
      charListLe as cs = true := by
  intro as
  induction as with
  | nil => intro bs cs _ _; rfl
  | cons a as ih =>
    intro bs cs hab hbc
    cases bs with
    | nil => simp [charListLe] at hab
    | cons b bs =>
      cases cs with
      | nil => simp [charListLe] at hbc
      | cons c cs =>
        simp only [charListLe] at hab hbc ⊢
        by_cases g1 : a.toNat < b.toNat
        · by_cases g2 : b.toNat < c.toNat
          · have g : a.toNat < c.toNat := by omega
            simp [g]
          · by_cases g3 : c.toNat < b.toNat
            · simp [g2, g3] at hbc
            · have g : a.toNat < c.toNat := by omega
              simp [g]
        · by_cases g4 : b.toNat < a.toNat
          · simp [g1, g4] at hab
          · simp only [if_neg g1, if_neg g4] at hab
            by_cases g2 : b.toNat < c.toNat
            · have g : a.toNat < c.toNat := by omega
              simp [g]
            · by_cases g3 : c.toNat < b.toNat
              · simp [g2, g3] at hbc
              · simp only [if_neg g2, if_neg g3] at hbc
                have g5 : ¬a.toNat < c.toNat := by omega
                have g6 : ¬c.toNat < a.toNat := by omega
                simp only [if_neg g5, if_neg g6]
                exact ih bs cs hab hbc

instance : IsTotal (String × PyVal) keyLe :=
  ⟨fun a b => charListLe_total a.1.data b.1.data⟩

instance : IsTrans (String × PyVal) keyLe :=
  ⟨fun _ _ _ hab hbc => charListLe_trans _ _ _ hab hbc⟩

/-! ## Claim theorems: type mapping, conversion, schema -/

lemma lookup_default_mem (t : List (Int × String)) (c : Int) (S : List String)
    (hS : "STRING" ∈ S) (hT : ∀ p ∈ t, p.2 ∈ S) :
    (match t.lookup c with | some s => s | none => "STRING") ∈ S := by
  induction t with
  | nil => simpa [List.lookup]
  | cons p t ih =>
    simp only [List.lookup]
    rcases hbeq : c == p.1 with _ | _
    · exact ih (fun q hq => hT q (List.mem_cons_of_mem p hq))
    · exact hT p (List.mem_cons_self p t)

/-- C3: `type_map` is total — every integer source type code yields exactly
one of INTEGER, FLOAT, TIMESTAMP, STRING — the integer-family codes
(tiny/short/long/longlong/int24/bit/year) map to INTEGER, the
decimal/double/float codes to FLOAT, the date/datetime/timestamp codes to
TIMESTAMP, and an unrecognized code such as 9999 returns STRING rather than
raising. -/
theorem type_map_total_table :
    (∀ c : Int, type_map c = "INTEGER" ∨ type_map c = "FLOAT" ∨
      type_map c = "TIMESTAMP" ∨ type_map c = "STRING") ∧
    type_map FIELD_TYPE.TINY = "INTEGER" ∧
    type_map FIELD_TYPE.SHORT = "INTEGER" ∧
    type_map FIELD_TYPE.LONG = "INTEGER" ∧
    type_map FIELD_TYPE.LONGLONG = "INTEGER" ∧
    type_map FIELD_TYPE.INT24 = "INTEGER" ∧
    type_map FIELD_TYPE.BIT = "INTEGER" ∧
    type_map FIELD_TYPE.YEAR = "INTEGER" ∧
    type_map FIELD_TYPE.DECIMAL = "FLOAT" ∧
    type_map FIELD_TYPE.NEWDECIMAL = "FLOAT" ∧
    type_map FIELD_TYPE.DOUBLE = "FLOAT" ∧
    type_map FIELD_TYPE.FLOAT = "FLOAT" ∧
    type_map FIELD_TYPE.DATE = "TIMESTAMP" ∧
    type_map FIELD_TYPE.DATETIME = "TIMESTAMP" ∧
    type_map FIELD_TYPE.TIMESTAMP = "TIMESTAMP" ∧
    type_map 9999 = "STRING" := by
  refine ⟨?_, by decide, by decide, by decide, by decide, by decide, by decide,
    by decide, by decide, by decide, by decide, by decide, by decide, by decide,
    by decide, by decide⟩
  intro c
  simpa using lookup_default_mem type_map_table c
    ["INTEGER", "FLOAT", "TIMESTAMP", "STRING"] (by decide) (by decide)

/-- C10: `convert_types` dispatches on the concrete class — values whose type
is exactly `datetime` or `date` become epoch seconds, `Decimal` instances
(subclasses included) become floats, and every other value, including
instances of strict subclasses of `datetime` or `date`, is returned
unchanged. -/
theorem convert_types_dispatch :
    (∀ t, convert_types (.pyDatetime false t) = .pyFloat (floatOfInt (mktimeTuple t))) ∧
    (∀ d, convert_types (.pyDate false d) =
      .pyFloat (floatOfInt (mktimeTuple (dateTimetuple d)))) ∧
    (∀ sub q, convert_types (.pyDecimal sub q) = .pyFloat q) ∧
    (∀ t, convert_types (.pyDatetime true t) = .pyDatetime true t) ∧
    (∀ d, convert_types (.pyDate true d) = .pyDate true d) ∧
    (∀ v, convert_types v = v ↔
      (typeIsExactlyDatetimeOrDate v = false ∧ isDecimalInstance v = false)) := by
  refine ⟨fun t => rfl, fun d => rfl, fun sub q => rfl, fun t => rfl, fun d => rfl, ?_⟩
  intro v
  cases v with
  | pyDatetime sub t =>
    cases sub <;> simp [convert_types, typeIsExactlyDatetimeOrDate, isDecimalInstance]
  | pyDate sub d =>
    cases sub <;> simp [convert_types, typeIsExactlyDatetimeOrDate, isDecimalInstance]
  | pyDecimal sub q =>
    simp [convert_types, typeIsExactlyDatetimeOrDate, isDecimalInstance]
  | _ => simp [convert_types, typeIsExactlyDatetimeOrDate, isDecimalInstance]

/-- C4: in the schema inferred from cursor metadata, a field's mode is
NULLABLE iff the source reports it nullable or its mapped type is TIMESTAMP,
and REQUIRED otherwise; the schema file content is the serialized inferred
list. -/
theorem schema_nullability (f : FieldDesc) (fn : String) (desc : List FieldDesc) :
    ((inferField f).mode = "NULLABLE" ↔
      (f.null_ok = true ∨ type_map f.type_code = "TIMESTAMP")) ∧
    ((inferField f).mode = "REQUIRED" ↔
      ¬(f.null_ok = true ∨ type_map f.type_code = "TIMESTAMP")) ∧
    _write_local_schema_file fn .noSchema desc =
      (fn, schemaListJson (desc.map inferField)) := by
  refine ⟨?_, ?_, rfl⟩ <;>
    · simp only [inferField]
      split_ifs with h <;> simp [h]

/-- C7: a pre-serialized string schema blob is passed through verbatim as the
schema file content. -/
theorem schema_blob_verbatim (fn s : String) (desc : List FieldDesc) :
    _write_local_schema_file fn (.blob s) desc = (fn, s) := rfl

/-! ## Writer-loop lemmas -/

lemma tell_append (a b : List String) : tell (a ++ b) = tell a + tell b := by
  simp [tell]

lemma tell_single (c : String) : tell [c] = strBytes c := by
  simp [tell]

lemma runRows_append (cfg : WriterCfg) (hdr : Bool) (schema : List String) :
    ∀ (rows rows' : List (List PyVal)) (st : WState),
      runRows cfg hdr schema st (rows ++ rows') =
        match runRows cfg hdr schema st rows with
        | none => none
        | some st1 => runRows cfg hdr schema st1 rows' := by
  intro rows
  induction rows with
  | nil => intro rows' st; rfl
  | cons row rows ih =>
    intro rows' st
    simp only [List.cons_append, runRows]
    cases encodeRow cfg.export_format schema row with
    | none => rfl
    | some chunk => exact ih rows' _

/-- Encoding of a whole row stream, `none` when any row fails to encode. -/
def encodeRows (fmt : ExportFormat) (schema : List String) :
    List (List PyVal) → Option (List String)
  | [] => some []
  | row :: rows =>
    match encodeRow fmt schema row, encodeRows fmt schema rows with
    | some c, some cs => some (c :: cs)
    | _, _ => none

lemma runRows_eq_fold (cfg : WriterCfg) (hdr : Bool) (schema : List String) :
    ∀ (rows : List (List PyVal)) (chunks : List String) (st : WState),
      encodeRows cfg.export_format schema rows = some chunks →
      runRows cfg hdr schema st rows =
        some (chunks.foldl (stepRow cfg hdr schema) st) := by
  intro rows
  induction rows with
  | nil =>
    intro chunks st h
    simp only [encodeRows, Option.some_inj] at h
    subst h
    rfl
  | cons row rows ih =>
    intro chunks st h
    simp only [encodeRows] at h
    cases henc : encodeRow cfg.export_format schema row with
    | none => rw [henc] at h; simp at h
    | some chunk =>
      rw [henc] at h
      cases hrest : encodeRows cfg.export_format schema rows with
      | none => rw [hrest] at h; simp at h
      | some cs =>
        rw [hrest] at h
        simp only [Option.some_inj] at h
        subst h
        simp only [runRows, henc, List.foldl_cons]
        exact ih cs _ hrest

lemma encodeRows_mem (fmt : ExportFormat) (schema : List String) :
    ∀ (rows : List (List PyVal)) (chunks : List String),
      encodeRows fmt schema rows = some chunks →
      ∀ c ∈ chunks, ∃ row ∈ rows, encodeRow fmt schema row = some c := by
  intro rows
  induction rows with
  | nil =>
    intro chunks h c hc
    simp only [encodeRows, Option.some_inj] at h
    subst h
    simp at hc
  | cons row rows ih =>
    intro chunks h c hc
    simp only [encodeRows] at h
    cases henc : encodeRow fmt schema row with
    | none => rw [henc] at h; simp at h
    | some c0 =>
      rw [henc] at h
      cases hrest : encodeRows fmt schema rows with
      | none => rw [hrest] at h; simp at h
      | some cs =>
        rw [hrest] at h
        simp only [Option.some_inj] at h
        subst h
        rcases List.mem_cons.mp hc with hc0 | hcs
        · exact ⟨row, List.mem_cons_self row rows, hc0 ▸ henc⟩
        · rcases ih cs hrest c hcs with ⟨r, hr, hfr⟩
          exact ⟨r, List.mem_cons_of_mem row hr, hfr⟩

lemma encodeRows_length (fmt : ExportFormat) (schema : List String) :
    ∀ (rows : List (List PyVal)) (chunks : List String),
      encodeRows fmt schema rows = some chunks →
      chunks.length = rows.length := by
  intro rows
  induction rows with
  | nil =>
    intro chunks h
    simp only [encodeRows, Option.some_inj] at h
    subst h
    rfl
  | cons row rows ih =>
    intro chunks h
    simp only [encodeRows] at h
    cases henc : encodeRow fmt schema row with
    | none => rw [henc] at h; simp at h
    | some c0 =>
      rw [henc] at h
      cases hrest : encodeRows fmt schema rows with
      | none => rw [hrest] at h; simp at h
      | some cs =>
        rw [hrest] at h
        simp only [Option.some_inj] at h
        subst h
        simp [ih cs hrest]

/-- When the total size of all chunks stays below the threshold, the fold
never rolls over: everything accumulates in the current file. -/
lemma foldl_stepRow_small (cfg : WriterCfg) (hdr : Bool) (schema : List String) :
    ∀ (chunks : List String) (st : WState),
      tell st.cur + tell chunks < cfg.approx_max_file_size_bytes →
      chunks.foldl (stepRow cfg hdr schema) st =
        { st with cur := st.cur ++ chunks } := by
  intro chunks
  induction chunks with
  | nil => intro st _; simp
  | cons c cs ih =>
    intro st h
    simp only [List.foldl_cons]
    have hsz : tell (st.cur ++ [c]) < cfg.approx_max_file_size_bytes := by
      rw [tell_append, tell_single]
      have : tell (c :: cs) = strBytes c + tell cs := by simp [tell]
      omega
    have hstep : stepRow cfg hdr schema st c = { st with cur := st.cur ++ [c] } := by
      simp only [stepRow]
      rw [if_neg (by omega)]
    rw [hstep]
    have h' : tell (st.cur ++ [c]) + tell cs < cfg.approx_max_file_size_bytes := by
      rw [tell_append, tell_single]
      have : tell (c :: cs) = strBytes c + tell cs := by simp [tell]
      omega
    have := ih { st with cur := st.cur ++ [c] } h'
    rw [this]
    simp

/-! ## Header flag claims -/

/-- C5 counterexample: the configuration string for the header flag is the
non-empty literal text `"False"`, yet the produced file contains only the
data row and no column-name row — the interpreter-style evaluation maps the
literal `False` to the boolean false, it does not treat every non-empty
string as true. -/
theorem csv_columnheader_false_counterexample :
    ("False" : String) ≠ "" ∧
    pyEvalTruthy "False" = some false ∧
    _write_local_data_files
      { filename := { pre := "g", post := ".csv" },
        approx_max_file_size_bytes := 1000000,
        export_format := { file_format := "csv", csv_columnheader := some "False" } }
      [{ name := "a", type_code := 3, null_ok := false }]
      [[.pyInt 1]] =
      some [("g0.csv", ["1\r\n"])] ∧
    "1\r\n" ≠ csvEncodeRow ["a"] := by
  decide

/-- C5 amended: the header-flag string is evaluated as a Python expression;
when it evaluates to a boolean-like literal, that value — not mere
non-emptiness — decides whether the column-name row is written, so the
literal text `"False"` disables the header while `"True"` enables it. -/
theorem csv_columnheader_eval (cfg : WriterCfg) (desc : List FieldDesc)
    (s : String) (b : Bool)
    (hfmt : cfg.export_format.file_format = "csv")
    (hs : cfg.export_format.csv_columnheader = some s)
    (hev : pyEvalTruthy s = some b) :
    headerFlag cfg.export_format = some b ∧
    _write_local_data_files cfg desc [] =
      some [(cfg.filename.subst 0,
        if b = true then [csvEncodeRow (desc.map (fun f => f.name))] else [])] := by
  have hflag : headerFlag cfg.export_format = some b := by
    rw [headerFlag, if_pos hfmt, hs]
    exact hev
  refine ⟨hflag, ?_⟩
  rw [_write_local_data_files, hflag]
  simp only [runRows]
  cases b with
  | false => simp [initChunks, hfmt]
  | true => simp [initChunks, hfmt]

theorem csv_columnheader_eval_witness :
    headerFlag { file_format := "csv", csv_columnheader := some "False" } = some false ∧
    _write_local_data_files
      { filename := { pre := "g", post := ".csv" },
        approx_max_file_size_bytes := 1000000,
        export_format := { file_format := "csv", csv_columnheader := some "False" } }
      [{ name := "a", type_code := 3, null_ok := false }] [] =
      some [(Template.subst { pre := "g", post := ".csv" } 0,
        if false = true then [csvEncodeRow ["a"]] else [])] :=
  csv_columnheader_eval
    { filename := { pre := "g", post := ".csv" },
      approx_max_file_size_bytes := 1000000,
      export_format := { file_format := "csv", csv_columnheader := some "False" } }
    [{ name := "a", type_code := 3, null_ok := false }]
    "False" false rfl rfl rfl

/-! ## CSV header invariant (C2) -/

/-- Invariant carried through the row loop in CSV mode with the header flag
truthy: every sealed file starts with the header row, and so does the
current file. -/
def HeaderInv (hdrRow : String) (st : WState) : Prop :=
  (∀ f ∈ st.finished, f.2.head? = some hdrRow) ∧ st.cur.head? = some hdrRow

lemma stepRow_header (cfg : WriterCfg) (schema : List String) (st : WState)
    (chunk : String)
    (hfmt : cfg.export_format.file_format = "csv")
    (hinv : HeaderInv (csvEncodeRow schema) st) :
    HeaderInv (csvEncodeRow schema) (stepRow cfg true schema st chunk) := by
  obtain ⟨hfin, hcur⟩ := hinv
  have hne : st.cur ≠ [] := by
    intro h
    rw [h] at hcur
    simp at hcur
  have hcur' : (st.cur ++ [chunk]).head? = some (csvEncodeRow schema) := by
    rw [List.head?_append_of_ne_nil st.cur hne]
    exact hcur
  rw [stepRow]
  split_ifs with hroll
  · refine ⟨?_, ?_⟩
    · intro f hf
      rcases List.mem_append.mp hf with hf1 | hf2
      · exact hfin f hf1
      · rcases List.mem_singleton.mp hf2 with rfl
        exact hcur'
    · simp [initChunks, hfmt]
  · exact ⟨hfin, hcur'⟩

lemma runRows_header (cfg : WriterCfg) (schema : List String)
    (hfmt : cfg.export_format.file_format = "csv") :
    ∀ (rows : List (List PyVal)) (st st' : WState),
      HeaderInv (csvEncodeRow schema) st →
      runRows cfg true schema st rows = some st' →
      HeaderInv (csvEncodeRow schema) st' := by
  intro rows
  induction rows with
  | nil =>
    intro st st' hinv hrun
    simp only [runRows, Option.some_inj] at hrun
    subst hrun
    exact hinv
  | cons row rows ih =>
    intro st st' hinv hrun
    simp only [runRows] at hrun
    cases henc : encodeRow cfg.export_format schema row with
    | none => rw [henc] at hrun; simp at hrun
    | some chunk =>
      rw [henc] at hrun
      exact ih _ st' (stepRow_header cfg schema st chunk hfmt hinv) hrun

/-- C2: in CSV mode with header emission enabled, the column-name row is the
first row of every produced data file, including every file opened after a
rollover. -/
theorem csv_header_first_row (cfg : WriterCfg) (desc : List FieldDesc)
    (rows : List (List PyVal)) (fs : List (String × List String))
    (hhdr : headerFlag cfg.export_format = some true)
    (hrun : _write_local_data_files cfg desc rows = some fs) :
    ∀ f ∈ fs, f.2.head? = some (csvEncodeRow (desc.map (fun f => f.name))) := by
  have hfmt : cfg.export_format.file_format = "csv" := by
    by_contra hne
    rw [headerFlag, if_neg hne] at hhdr
    simp at hhdr
  rw [_write_local_data_files, hhdr] at hrun
  dsimp only at hrun
  cases hst : runRows cfg true (desc.map (fun f => f.name))
      { fileNo := 0, finished := [],
        cur := initChunks true cfg.export_format (desc.map (fun f => f.name)) } rows with
  | none => rw [hst] at hrun; simp at hrun
  | some st =>
    rw [hst] at hrun
    simp only [Option.some_inj] at hrun
    subst hrun
    have hinit : HeaderInv (csvEncodeRow (desc.map (fun f => f.name)))
        { fileNo := 0, finished := [],
          cur := initChunks true cfg.export_format (desc.map (fun f => f.name)) } := by
      constructor
      · intro f hf
        simp at hf
      · simp [initChunks, hfmt]
    obtain ⟨hfin, hcur⟩ :=
      runRows_header cfg (desc.map (fun f => f.name)) hfmt rows _ st hinit hst
    intro f hf
    rcases List.mem_append.mp hf with hf1 | hf2
    · exact hfin f hf1
    · rcases List.mem_singleton.mp hf2 with rfl
      exact hcur

theorem csv_header_first_row_witness :
    ("g0.csv", ["a\r\n", "1\r\n"]).2.head? = some (csvEncodeRow ["a"]) ∧
    ("g1.csv", ["a\r\n", "2\r\n"]).2.head? = some (csvEncodeRow ["a"]) ∧
    ("g2.csv", ["a\r\n"]).2.head? = some (csvEncodeRow ["a"]) := by
  have h := csv_header_first_row
    { filename := { pre := "g", post := ".csv" },
      approx_max_file_size_bytes := 6,
      export_format := { file_format := "csv", csv_columnheader := some "True" } }
    [{ name := "a", type_code := 3, null_ok := false }]
    [[.pyInt 1], [.pyInt 2]]
    [("g0.csv", ["a\r\n", "1\r\n"]), ("g1.csv", ["a\r\n", "2\r\n"]),
     ("g2.csv", ["a\r\n"])]
    (by decide) (by decide)
  exact ⟨h _ (by decide), h _ (by decide), h _ (by decide)⟩

/-! ## Trailing file after a final-row rollover (C9) -/

/-- C9: when appending the final row makes the current file reach the
threshold, the writer still opens a new data file with the next index and
returns it in the file set, so the export ends with a trailing file holding
zero data rows — only the header row in CSV mode with headers enabled, and
nothing at all otherwise. -/
theorem trailing_file_after_final_rollover (cfg : WriterCfg)
    (desc : List FieldDesc) (rows : List (List PyVal)) (row : List PyVal)
    (hdr : Bool) (st : WState) (chunk : String)
    (hh : headerFlag cfg.export_format = some hdr)
    (hrun : runRows cfg hdr (desc.map (fun f => f.name))
      { fileNo := 0, finished := [],
        cur := initChunks hdr cfg.export_format (desc.map (fun f => f.name)) }
      rows = some st)
    (henc : encodeRow cfg.export_format (desc.map (fun f => f.name)) row = some chunk)
    (htrig : cfg.approx_max_file_size_bytes ≤ tell (st.cur ++ [chunk])) :
    _write_local_data_files cfg desc (rows ++ [row]) =
      some (st.finished
        ++ [(cfg.filename.subst st.fileNo, st.cur ++ [chunk]),
            (cfg.filename.subst (st.fileNo + 1),
             initChunks hdr cfg.export_format (desc.map (fun f => f.name)))]) ∧
    initChunks hdr cfg.export_format (desc.map (fun f => f.name)) =
      (if cfg.export_format.file_format = "csv" ∧ hdr = true
       then [csvEncodeRow (desc.map (fun f => f.name))] else []) := by
  refine ⟨?_, rfl⟩
  rw [_write_local_data_files, hh]
  dsimp only
  rw [runRows_append, hrun]
  simp only [runRows, henc]
  rw [stepRow]
  rw [if_pos htrig]
  simp

theorem trailing_file_after_final_rollover_witness :
    _write_local_data_files
      { filename := { pre := "g", post := ".csv" },
        approx_max_file_size_bytes := 3,
        export_format := { file_format := "csv", csv_columnheader := some "True" } }
      [{ name := "a", type_code := 3, null_ok := false }]
      ([] ++ [[.pyInt 1]]) =
      some ([]
        ++ [(Template.subst { pre := "g", post := ".csv" } 0, ["a\r\n"] ++ ["1\r\n"]),
            (Template.subst { pre := "g", post := ".csv" } 1,
             initChunks true
               { file_format := "csv", csv_columnheader := some "True" } ["a"])]) ∧
    initChunks true { file_format := "csv", csv_columnheader := some "True" } ["a"] =
      (if ({ file_format := "csv", csv_columnheader := some "True" } : ExportFormat).file_format = "csv" ∧ true = true
       then [csvEncodeRow ["a"]] else []) :=
  trailing_file_after_final_rollover
    { filename := { pre := "g", post := ".csv" },
      approx_max_file_size_bytes := 3,
      export_format := { file_format := "csv", csv_columnheader := some "True" } }
    [{ name := "a", type_code := 3, null_ok := false }]
    [] [.pyInt 1] true
    { fileNo := 0, finished := [], cur := ["a\r\n"] } "1\r\n"
    (by decide) (by decide) (by decide) (by decide)

/-! ## File-set keys (C8) -/

/-- Invariant: the sealed files' keys are the template substituted at
0, 1, …, fileNo-1 in creation order. -/
def KeysInv (cfg : WriterCfg) (st : WState) : Prop :=
  st.finished.map Prod.fst = (List.range st.fileNo).map cfg.filename.subst ∧
  st.finished.length = st.fileNo

lemma stepRow_keys (cfg : WriterCfg) (hdr : Bool) (schema : List String)
    (st : WState) (chunk : String) (hinv : KeysInv cfg st) :
    KeysInv cfg (stepRow cfg hdr schema st chunk) := by
  obtain ⟨hkeys, hlen⟩ := hinv
  rw [stepRow]
  split_ifs with hroll
  · constructor
    · simp only [List.map_append, hkeys, List.range_succ, List.map_cons,
        List.map_nil]
    · simp [hlen]
  · exact ⟨hkeys, hlen⟩

lemma runRows_keys (cfg : WriterCfg) (hdr : Bool) (schema : List String) :
    ∀ (rows : List (List PyVal)) (st st' : WState),
      KeysInv cfg st →
      runRows cfg hdr schema st rows = some st' →
      KeysInv cfg st' := by
  intro rows
  induction rows with
  | nil =>
    intro st st' hinv hrun
    simp only [runRows, Option.some_inj] at hrun
    subst hrun
    exact hinv
  | cons row rows ih =>
    intro st st' hinv hrun
    simp only [runRows] at hrun
    cases henc : encodeRow cfg.export_format schema row with
    | none => rw [henc] at hrun; simp at hrun
    | some chunk =>
      rw [henc] at hrun
      exact ih _ st' (stepRow_keys cfg hdr schema st chunk hinv) hrun

lemma schema_file_key (fn : String) (scfg : SchemaCfg) (desc : List FieldDesc) :
    (_write_local_schema_file fn scfg desc).1 = fn := by
  cases scfg <;> rfl

/-- C8: the finalized file set's data-file keys are the filename template
substituted at the strictly increasing indices 0, 1, 2, … in creation order,
they are pairwise distinct, and when a schema filename (distinct from every
data-file key) is configured it is the single further key, appended last by
the dict update. -/
theorem file_set_keys (cfg : WriterCfg) (desc : List FieldDesc)
    (rows : List (List PyVal)) (fs : List (String × List String))
    (scfg : SchemaCfg) (fn : String)
    (hrun : _write_local_data_files cfg desc rows = some fs) :
    (fs.map Prod.fst = (List.range fs.length).map cfg.filename.subst) ∧
    (fs.map Prod.fst).Nodup ∧
    (fn ∉ fs.map Prod.fst →
      execute_files cfg (some fn) scfg desc rows =
        some (fs ++ [(fn, [(_write_local_schema_file fn scfg desc).2])]) ∧
      ((fs ++ [(fn, [(_write_local_schema_file fn scfg desc).2])]).map
        Prod.fst).Nodup) := by
  rw [_write_local_data_files] at hrun
  cases hh : headerFlag cfg.export_format with
  | none => rw [hh] at hrun; simp at hrun
  | some hdr =>
    rw [hh] at hrun
    dsimp only at hrun
    cases hst : runRows cfg hdr (desc.map (fun f => f.name))
        { fileNo := 0, finished := [],
          cur := initChunks hdr cfg.export_format (desc.map (fun f => f.name)) }
        rows with
    | none => rw [hst] at hrun; simp at hrun
    | some st =>
      rw [hst] at hrun
      simp only [Option.some_inj] at hrun
      obtain ⟨hkeys, hlen⟩ := runRows_keys cfg hdr (desc.map (fun f => f.name))
        rows _ st ⟨by simp, rfl⟩ hst
      have hfskeys : fs.map Prod.fst =
          (List.range (st.fileNo + 1)).map cfg.filename.subst := by
        rw [← hrun, List.map_append, hkeys, List.range_succ]
        simp
      have hfslen : fs.length = st.fileNo + 1 := by
        rw [← hrun, List.length_append, hlen]
        simp
      have hkeysrange : fs.map Prod.fst =
          (List.range fs.length).map cfg.filename.subst := by
        rw [hfslen, hfskeys]
      have hnodup : (fs.map Prod.fst).Nodup := by
        rw [hkeysrange]
        exact (List.nodup_range fs.length).map (subst_inj cfg.filename)
      refine ⟨hkeysrange, hnodup, ?_⟩
      intro hfresh
      have hany : fs.any (fun p => p.1 == fn) = false := by
        rw [List.any_eq_false]
        intro p hp
        simp only [beq_iff_eq]
        intro hpeq
        exact hfresh (hpeq ▸ List.mem_map_of_mem Prod.fst hp)
      constructor
      · rw [execute_files, _write_local_data_files, hh]
        dsimp only
        rw [hst]
        dsimp only
        rw [hrun]
        rw [dictUpdate, schema_file_key fn scfg desc,
          if_neg (by rw [hany]; simp)]
      · rw [List.map_append]
        rw [List.nodup_append]
        refine ⟨hnodup, by simp, ?_⟩
        intro a ha hb
        simp only [List.map_cons, List.map_nil, List.mem_singleton] at hb
        subst hb
        exact hfresh ha

theorem file_set_keys_witness :
    (["g0.csv", "g1.csv", "g2.csv"] :
        List String).Nodup ∧
    execute_files
      { filename := { pre := "g", post := ".csv" },
        approx_max_file_size_bytes := 6,
        export_format := { file_format := "csv", csv_columnheader := some "True" } }
      (some "schema.json") (.blob "RAW")
      [{ name := "a", type_code := 3, null_ok := false }]
      [[.pyInt 1], [.pyInt 2]] =
      some ([("g0.csv", ["a\r\n", "1\r\n"]), ("g1.csv", ["a\r\n", "2\r\n"]),
             ("g2.csv", ["a\r\n"])]
        ++ [("schema.json",
             [(_write_local_schema_file "schema.json" (.blob "RAW")
               [{ name := "a", type_code := 3, null_ok := false }]).2])]) := by
  have h := file_set_keys
    { filename := { pre := "g", post := ".csv" },
      approx_max_file_size_bytes := 6,
      export_format := { file_format := "csv", csv_columnheader := some "True" } }
    [{ name := "a", type_code := 3, null_ok := false }]
    [[.pyInt 1], [.pyInt 2]]
    [("g0.csv", ["a\r\n", "1\r\n"]), ("g1.csv", ["a\r\n", "2\r\n"]),
     ("g2.csv", ["a\r\n"])]
    (.blob "RAW") "schema.json" (by decide)
  refine ⟨?_, (h.2.2 (by decide)).1⟩
  have hn := h.2.1
  simp only [List.map_cons, List.map_nil] at hn
  exact hn

/-! ## No raw newline inside a serialized JSON object (C6) -/

lemma digitChar_ne_nl (n : Nat) : digitChar n ≠ '\n' := by
  unfold digitChar
  split <;> decide

lemma hexDigitChar_ne_nl (n : Nat) : hexDigitChar n ≠ '\n' := by
  unfold hexDigitChar
  split <;> decide

lemma nl_not_mem_natDigitsAux : ∀ fuel n, '\n' ∉ natDigitsAux fuel n := by
  intro fuel
  induction fuel with
  | zero => intro n; simp [natDigitsAux]
  | succ fuel ih =>
    intro n
    by_cases h : n < 10
    · simp only [natDigitsAux, if_pos h, List.mem_singleton]
      exact Ne.symm (digitChar_ne_nl n)
    · simp only [natDigitsAux, if_neg h, List.mem_append, List.mem_singleton]
      push_neg
      exact ⟨ih _, Ne.symm (digitChar_ne_nl _)⟩

lemma noNL_natStr (n : Nat) : '\n' ∉ (natStr n).data :=
  nl_not_mem_natDigitsAux _ _

lemma noNL_append {a b : String} (ha : '\n' ∉ a.data) (hb : '\n' ∉ b.data) :
    '\n' ∉ (a ++ b).data := by
  rw [String.data_append, List.mem_append]
  push_neg
  exact ⟨ha, hb⟩

lemma noNL_intRepr (n : Int) : '\n' ∉ (intRepr n).data := by
  unfold intRepr
  split_ifs
  · exact noNL_append (by decide) (noNL_natStr _)
  · exact noNL_natStr _

lemma nl_not_mem_fracDigits : ∀ fuel q, '\n' ∉ fracDigits fuel q := by
  intro fuel
  induction fuel with
  | zero => intro q; simp [fracDigits]
  | succ fuel ih =>
    intro q
    by_cases h : q = 0
    · simp [fracDigits, h]
    · simp only [fracDigits, if_neg h, List.mem_cons]
      push_neg
      exact ⟨Ne.symm (digitChar_ne_nl _), ih _⟩

lemma noNL_floatRepr (q : ℚ) : '\n' ∉ (floatRepr q).data := by
  unfold floatRepr
  refine noNL_append (noNL_append (noNL_append ?_ (noNL_natStr _)) (by decide)) ?_
  · split_ifs <;> decide
  · split_ifs
    · decide
    · exact nl_not_mem_fracDigits _ _

lemma nl_not_mem_hex4 (n : Nat) : '\n' ∉ hex4 n := by
  intro hc
  simp only [hex4, List.mem_cons, List.not_mem_nil, or_false] at hc
  rcases hc with h | h | h | h <;> exact hexDigitChar_ne_nl _ h.symm

lemma nl_not_mem_uhex (n : Nat) : '\n' ∉ '\\' :: 'u' :: hex4 n := by
  intro hc
  rcases List.mem_cons.mp hc with h | hc
  · exact absurd h (by decide)
  rcases List.mem_cons.mp hc with h | hc
  · exact absurd h (by decide)
  exact nl_not_mem_hex4 n hc

lemma nl_not_mem_jsonEscapeChar (c : Char) : '\n' ∉ jsonEscapeChar c := by
  unfold jsonEscapeChar
  by_cases h1 : c = '"'
  · rw [if_pos h1]; decide
  rw [if_neg h1]
  by_cases h2 : c = '\\'
  · rw [if_pos h2]; decide
  rw [if_neg h2]
  by_cases h3 : c = '\n'
  · rw [if_pos h3]; decide
  rw [if_neg h3]
  by_cases h4 : c = '\r'
  · rw [if_pos h4]; decide
  rw [if_neg h4]
  by_cases h5 : c = '\t'
  · rw [if_pos h5]; decide
  rw [if_neg h5]
  by_cases h6 : c.toNat = 8
  · rw [if_pos h6]; decide
  rw [if_neg h6]
  by_cases h7 : c.toNat = 12
  · rw [if_pos h7]; decide
  rw [if_neg h7]
  by_cases h8 : c.toNat < 32
  · rw [if_pos h8]; exact nl_not_mem_uhex _
  rw [if_neg h8]
  by_cases h9 : c.toNat < 127
  · rw [if_pos h9]
    intro hc
    exact h3 (List.mem_singleton.mp hc).symm
  rw [if_neg h9]
  by_cases h10 : c.toNat < 65536
  · rw [if_pos h10]; exact nl_not_mem_uhex _
  rw [if_neg h10]
  intro hc
  rcases List.mem_append.mp hc with h | h
  · exact nl_not_mem_uhex _ h
  · exact nl_not_mem_uhex _ h

lemma nl_not_mem_escape_foldr : ∀ cs : List Char,
    '\n' ∉ cs.foldr (fun c acc => jsonEscapeChar c ++ acc) ['"'] := by
  intro cs
  induction cs with
  | nil => decide
  | cons c cs ih =>
    simp only [List.foldr_cons, List.mem_append]
    push_neg
    exact ⟨nl_not_mem_jsonEscapeChar c, ih⟩

lemma noNL_jsonQuote (s : String) : '\n' ∉ (jsonQuote s).data := by
  unfold jsonQuote
  simp only [List.mem_cons]
  push_neg
  exact ⟨by decide, nl_not_mem_escape_foldr s.data⟩

lemma noNL_jsonValRepr {v : PyVal} {s : String} (h : jsonValRepr v = some s) :
    '\n' ∉ s.data := by
  cases v with
  | pyNone =>
    simp only [jsonValRepr, Option.some_inj] at h
    subst h
    decide
  | pyBool b =>
    cases b <;> simp only [jsonValRepr, Option.some_inj] at h <;> subst h <;> decide
  | pyInt n =>
    simp only [jsonValRepr, Option.some_inj] at h
    subst h
    exact noNL_intRepr n
  | pyFloat q =>
    simp only [jsonValRepr, Option.some_inj] at h
    subst h
    exact noNL_floatRepr q
  | pyStr t =>
    simp only [jsonValRepr, Option.some_inj] at h
    subst h
    exact noNL_jsonQuote t
  | pyDatetime sub t => simp [jsonValRepr] at h
  | pyDate sub d => simp [jsonValRepr] at h
  | pyDecimal sub q => simp [jsonValRepr] at h

lemma noNL_jsonMember {p : String × PyVal} {m : String}
    (h : jsonMember p = some m) : '\n' ∉ m.data := by
  unfold jsonMember at h
  cases hv : jsonValRepr p.2 with
  | none => rw [hv] at h; simp at h
  | some v =>
    rw [hv] at h
    simp only [Option.map_some', Option.some_inj] at h
    subst h
    exact noNL_append (noNL_append (noNL_jsonQuote _) (by decide))
      (noNL_jsonValRepr hv)

lemma noNL_jsonMembers : ∀ (ps : List (String × PyVal)) (ms : List String),
    jsonMembers ps = some ms → ∀ m ∈ ms, '\n' ∉ m.data := by
  intro ps
  induction ps with
  | nil =>
    intro ms h m hm
    simp only [jsonMembers, Option.some_inj] at h
    subst h
    simp at hm
  | cons p ps ih =>
    intro ms h m hm
    simp only [jsonMembers] at h
    cases hp : jsonMember p with
    | none => rw [hp] at h; simp at h
    | some m0 =>
      rw [hp] at h
      cases hrest : jsonMembers ps with
      | none => rw [hrest] at h; simp at h
      | some ms0 =>
        rw [hrest] at h
        simp only [Option.some_inj] at h
        subst h
        rcases List.mem_cons.mp hm with hm0 | hms
        · exact hm0 ▸ noNL_jsonMember hp
        · exact ih ms0 hrest m hms

lemma noNL_joinSep : ∀ (l : List String),
    (∀ x ∈ l, '\n' ∉ x.data) → '\n' ∉ (joinSep ", " l).data := by
  intro l
  induction l with
  | nil => intro _; decide
  | cons x xs ih =>
    intro h
    cases xs with
    | nil => exact h x (List.mem_singleton.mpr rfl)
    | cons y ys =>
      simp only [joinSep]
      refine noNL_append (noNL_append (h x (List.mem_cons_self x _)) (by decide)) ?_
      exact ih (fun z hz => h z (List.mem_cons_of_mem x hz))

lemma noNL_jsonDumpsObj {ps : List (String × PyVal)} {s : String}
    (h : jsonDumpsObj ps = some s) : '\n' ∉ s.data := by
  unfold jsonDumpsObj at h
  cases hm : jsonMembers (List.insertionSort keyLe (dictOfPairs ps)) with
  | none => rw [hm] at h; simp at h
  | some ms =>
    rw [hm] at h
    simp only [Option.map_some', Option.some_inj] at h
    subst h
    exact noNL_append (noNL_append (by decide)
      (noNL_joinSep ms (noNL_jsonMembers _ ms hm))) (by decide)

/-- C6: in JSON mode, as long as the accumulated size stays below the
threshold, the export yields exactly one file (named with index 0) whose
contents are one serialized object per row in row order and nothing else (no
header line); every serialized row ends with a single newline byte and
contains no other newline; and the keys of every serialized object are in
lexicographically sorted order. -/
theorem json_mode_lines (cfg : WriterCfg) (desc : List FieldDesc)
    (rows : List (List PyVal)) (chunks : List String)
    (hfmt : cfg.export_format.file_format = "json")
    (henc : encodeRows cfg.export_format (desc.map (fun f => f.name)) rows = some chunks)
    (hsize : tell chunks < cfg.approx_max_file_size_bytes) :
    _write_local_data_files cfg desc rows = some [(cfg.filename.subst 0, chunks)] ∧
    (∀ c ∈ chunks, ∃ s, c = s ++ "\n" ∧ '\n' ∉ s.data) ∧
    (∀ (schema : List String) (row : List PyVal),
      List.Sorted (fun a b => pyStrLe a b = true)
        ((List.insertionSort keyLe
          (dictOfPairs (schema.zip (row.map convert_types)))).map Prod.fst)) := by
  have hflag : headerFlag cfg.export_format = some false := by
    rw [headerFlag, hfmt]
    rw [if_neg (by decide)]
  have hinit : initChunks false cfg.export_format (desc.map (fun f => f.name)) = [] := by
    rw [initChunks, if_neg (by simp)]
  refine ⟨?_, ?_, ?_⟩
  · rw [_write_local_data_files, hflag]
    dsimp only
    rw [runRows_eq_fold cfg false (desc.map (fun f => f.name)) rows chunks _ henc]
    dsimp only
    rw [foldl_stepRow_small cfg false (desc.map (fun f => f.name)) chunks _
      (by rw [hinit]; simpa [tell] using hsize)]
    rw [hinit]
    simp
  · intro c hc
    rcases encodeRows_mem cfg.export_format (desc.map (fun f => f.name)) rows
      chunks henc c hc with ⟨row, _, hrow⟩
    rw [encodeRow] at hrow
    rw [hfmt] at hrow
    rw [if_neg (by decide)] at hrow
    cases hd : jsonDumpsObj ((desc.map (fun f => f.name)).zip
        (row.map convert_types)) with
    | none => rw [hd] at hrow; simp at hrow
    | some s =>
      rw [hd] at hrow
      simp only [Option.map_some', Option.some_inj] at hrow
      exact ⟨s, hrow.symm, noNL_jsonDumpsObj hd⟩
  · intro schema row
    have hs := List.sorted_insertionSort keyLe
      (dictOfPairs (schema.zip (row.map convert_types)))
    exact List.Pairwise.map Prod.fst (fun a b hab => hab) hs

theorem json_mode_lines_witness :
    _write_local_data_files
      { filename := { pre := "f", post := ".json" },
        approx_max_file_size_bytes := 1000,
        export_format := { file_format := "json" } }
      [{ name := "b", type_code := 3, null_ok := false },
       { name := "a", type_code := 254, null_ok := true }]
      [[.pyInt 1, .pyStr "x"], [.pyNone, .pyBool true], [.pyInt 2, .pyInt 3]] =
      some [(Template.subst { pre := "f", post := ".json" } 0,
             ["\x7b\"a\": \"x\", \"b\": 1\x7d\n",
              "\x7b\"a\": true, \"b\": null\x7d\n",
              "\x7b\"a\": 3, \"b\": 2\x7d\n"])] :=
  (json_mode_lines
    { filename := { pre := "f", post := ".json" },
      approx_max_file_size_bytes := 1000,
      export_format := { file_format := "json" } }
    [{ name := "b", type_code := 3, null_ok := false },
     { name := "a", type_code := 254, null_ok := true }]
    [[.pyInt 1, .pyStr "x"], [.pyNone, .pyBool true], [.pyInt 2, .pyInt 3]]
    ["\x7b\"a\": \"x\", \"b\": 1\x7d\n",
     "\x7b\"a\": true, \"b\": null\x7d\n",
     "\x7b\"a\": 3, \"b\": 2\x7d\n"]
    rfl (by decide) (by decide)).1

/-! ## Rollover counting with uniform row size (C1) -/

lemma threshold_iff (B S j : Nat) (hS : 1 ≤ S) :
    (B ≤ j * S) ↔ ((B + S - 1) / S ≤ j) := by
  rw [Nat.div_le_iff_le_mul_add_pred hS, Nat.mul_comm j S]
  generalize S * j = X
  omega

lemma div_mod_succ_eq (k m : Nat) (hk : 1 ≤ k) (h : m % k + 1 = k) :
    (m + 1) / k = m / k + 1 ∧ (m + 1) % k = 0 := by
  have hm := Nat.div_add_mod m k
  have h1 : m + 1 = k * (m / k + 1) := by
    rw [Nat.mul_add, Nat.mul_one]
    omega
  constructor
  · rw [h1, Nat.mul_div_cancel_left _ hk]
  · rw [h1, Nat.mul_mod_right]

lemma div_mod_succ_lt (k m : Nat) (hk : 1 ≤ k) (h : m % k + 1 < k) :
    (m + 1) / k = m / k ∧ (m + 1) % k = m % k + 1 := by
  have hm := Nat.div_add_mod m k
  have h1 : m + 1 = k * (m / k) + (m % k + 1) := by omega
  constructor
  · rw [h1, Nat.mul_add_div hk, Nat.div_eq_of_lt h]
    omega
  · rw [h1, Nat.mul_add_mod]
    exact Nat.mod_eq_of_lt h

/-- Invariant after `m` uniformly `S`-sized chunks with `k` rows per file:
the writer has sealed `m / k` files of exactly `k` chunks and `k * S` bytes
each, and the current file holds the remaining `m % k` chunks. -/
def UniformInv (S k m : Nat) (st : WState) : Prop :=
  st.fileNo = m / k ∧
  st.finished.length = m / k ∧
  (∀ f ∈ st.finished, f.2.length = k ∧ tell f.2 = k * S) ∧
  st.cur.length = m % k ∧
  tell st.cur = (m % k) * S

lemma stepRow_uniform (cfg : WriterCfg) (hdr : Bool) (schema : List String)
    (S : Nat) (m : Nat) (st : WState) (chunk : String)
    (hS : 1 ≤ S) (hB : 1 ≤ cfg.approx_max_file_size_bytes)
    (hinit : initChunks hdr cfg.export_format schema = [])
    (hc : strBytes chunk = S)
    (hinv : UniformInv S ((cfg.approx_max_file_size_bytes + S - 1) / S) m st) :
    UniformInv S ((cfg.approx_max_file_size_bytes + S - 1) / S) (m + 1)
      (stepRow cfg hdr schema st chunk) := by
  set B := cfg.approx_max_file_size_bytes with hBdef
  set k := (B + S - 1) / S with hkdef
  have hk1 : 1 ≤ k := by
    rw [hkdef, Nat.one_le_div_iff (by omega)]
    omega
  obtain ⟨hfn, hflen, hfiles, hclen, hcsz⟩ := hinv
  have hmod : m % k < k := Nat.mod_lt m hk1
  have hcur' : tell (st.cur ++ [chunk]) = (m % k + 1) * S := by
    rw [tell_append, tell_single, hcsz, hc]
    ring
  have hcurlen' : (st.cur ++ [chunk]).length = m % k + 1 := by
    rw [List.length_append, hclen]
    rfl
  have hiff : (B ≤ tell (st.cur ++ [chunk])) ↔ (m % k + 1 = k) := by
    rw [hcur', threshold_iff B S (m % k + 1) hS, ← hkdef]
    omega
  rw [stepRow]
  split_ifs with hroll
  · have heq : m % k + 1 = k := hiff.mp hroll
    obtain ⟨hdiv, hmod0⟩ := div_mod_succ_eq k m hk1 heq
    refine ⟨?_, ?_, ?_, ?_, ?_⟩
    · simp only [hfn, hdiv]
    · simp only [List.length_append, hflen, List.length_cons, List.length_nil, hdiv]
    · intro f hf
      rcases List.mem_append.mp hf with hf1 | hf2
      · exact hfiles f hf1
      · rcases List.mem_singleton.mp hf2 with rfl
        constructor
        · rw [hcurlen', heq]
        · rw [hcur', heq]
    · simp only [hinit, List.length_nil, hmod0]
    · simp only [hinit, hmod0, tell, List.map_nil, List.sum_nil, Nat.zero_mul]
  · have hlt : m % k + 1 < k := by
      rcases Nat.lt_or_ge (m % k + 1) k with h | h
      · exact h
      · exact absurd (hiff.mpr (by omega)) hroll
    obtain ⟨hdiv, hmod'⟩ := div_mod_succ_lt k m hk1 hlt
    exact ⟨by simp [hfn, hdiv], by simp [hflen, hdiv], hfiles,
      by rw [hcurlen', hmod'], by rw [hcur', hmod']⟩

lemma foldl_stepRow_uniform (cfg : WriterCfg) (hdr : Bool) (schema : List String)
    (S : Nat) (hS : 1 ≤ S) (hB : 1 ≤ cfg.approx_max_file_size_bytes)
    (hinit : initChunks hdr cfg.export_format schema = []) :
    ∀ (chunks : List String) (m : Nat) (st : WState),
      (∀ c ∈ chunks, strBytes c = S) →
      UniformInv S ((cfg.approx_max_file_size_bytes + S - 1) / S) m st →
      UniformInv S ((cfg.approx_max_file_size_bytes + S - 1) / S)
        (m + chunks.length) (chunks.foldl (stepRow cfg hdr schema) st) := by
  intro chunks
  induction chunks with
  | nil =>
    intro m st _ hinv
    simpa using hinv
  | cons c cs ih =>
    intro m st hsz hinv
    have hstep := stepRow_uniform cfg hdr schema S m st c hS hB hinit
      (hsz c (List.mem_cons_self c cs)) hinv
    have hres := ih (m + 1) (stepRow cfg hdr schema st c)
      (fun x hx => hsz x (List.mem_cons_of_mem c hx)) hstep
    have harith : m + (cs.length + 1) = m + 1 + cs.length := by omega
    simp only [List.foldl_cons, List.length_cons]
    rw [harith]
    exact hres

/-- C1 counterexample: with threshold `B = 10` and ten rows each encoding to
`S = 9` bytes, the export produces 6 data files, while the claimed count
`ceil(N*S/B) = 9` is off by 3 — overshoot accumulates per file, so the
`± 1` bound around `ceil(N*S/B)` does not hold. -/
theorem rollover_ceil_counterexample :
    encodeRows { file_format := "json" } ["a"] (List.replicate 10 [.pyInt 1]) =
      some (List.replicate 10 "\x7b\"a\": 1\x7d\n") ∧
    strBytes "\x7b\"a\": 1\x7d\n" = 9 ∧
    (10 * 9 + 10 - 1) / 10 = 9 ∧
    (_write_local_data_files
      { filename := { pre := "f", post := "" },
        approx_max_file_size_bytes := 10,
        export_format := { file_format := "json" } }
      [{ name := "a", type_code := 3, null_ok := false }]
      (List.replicate 10 [.pyInt 1])).map List.length = some 6 ∧
    ¬((6 : Nat) = 9 - 1 ∨ (6 : Nat) = 9 ∨ (6 : Nat) = 9 + 1) := by
  decide

/-- C1 amended: in JSON mode with every row encoding to `S ≥ 1` bytes and
threshold `B ≥ 1`, the export produces exactly
`⌊N / ⌈B/S⌉⌋ + 1` data files (the writer always keeps a current, possibly
empty, trailing file open); every produced data file except the last holds
exactly `⌈B/S⌉` rows and `⌈B/S⌉·S ≥ B` bytes — at least the threshold, with
the overshoot of the after-append rollover check. -/
theorem rollover_file_count (cfg : WriterCfg) (desc : List FieldDesc)
    (rows : List (List PyVal)) (chunks : List String) (S : Nat)
    (fs : List (String × List String))
    (hfmt : cfg.export_format.file_format = "json")
    (hS : 1 ≤ S) (hB : 1 ≤ cfg.approx_max_file_size_bytes)
    (henc : encodeRows cfg.export_format (desc.map (fun f => f.name)) rows = some chunks)
    (hsizes : ∀ c ∈ chunks, strBytes c = S)
    (hrun : _write_local_data_files cfg desc rows = some fs) :
    fs.length =
      rows.length / ((cfg.approx_max_file_size_bytes + S - 1) / S) + 1 ∧
    (∀ f ∈ fs.dropLast,
      f.2.length = (cfg.approx_max_file_size_bytes + S - 1) / S ∧
      tell f.2 = ((cfg.approx_max_file_size_bytes + S - 1) / S) * S ∧
      cfg.approx_max_file_size_bytes ≤ tell f.2) := by
  have hflag : headerFlag cfg.export_format = some false := by
    rw [headerFlag, hfmt, if_neg (by decide)]
  have hinit : initChunks false cfg.export_format (desc.map (fun f => f.name)) = [] := by
    rw [initChunks, if_neg (by simp)]
  rw [_write_local_data_files, hflag] at hrun
  dsimp only at hrun
  rw [runRows_eq_fold cfg false (desc.map (fun f => f.name)) rows chunks _ henc]
    at hrun
  simp only [Option.some_inj] at hrun
  have hinv0 : UniformInv S ((cfg.approx_max_file_size_bytes + S - 1) / S) 0
      { fileNo := 0, finished := [],
        cur := initChunks false cfg.export_format (desc.map (fun f => f.name)) } := by
    rw [hinit]
    refine ⟨by simp, by simp, by simp, by simp, by simp [tell]⟩
  have hinv := foldl_stepRow_uniform cfg false (desc.map (fun f => f.name)) S hS hB
    hinit chunks 0 _ hsizes hinv0
  rw [Nat.zero_add] at hinv
  obtain ⟨hfn, hflen, hfiles, hclen, hcsz⟩ := hinv
  have hlen : chunks.length = rows.length :=
    encodeRows_length cfg.export_format (desc.map (fun f => f.name)) rows chunks henc
  constructor
  · rw [← hrun, List.length_append, hflen, hlen]
    rfl
  · intro f hf
    rw [← hrun, List.dropLast_concat] at hf
    obtain ⟨hl, ht⟩ := hfiles f hf
    refine ⟨hl, ht, ?_⟩
    rw [ht, (threshold_iff cfg.approx_max_file_size_bytes S _ hS)]

theorem rollover_file_count_witness :
    ([("f0", ["\x7b\"a\": 1\x7d\n", "\x7b\"a\": 1\x7d\n"]),
      ("f1", ["\x7b\"a\": 1\x7d\n"])] :
        List (String × List String)).length =
      (List.replicate 3 [PyVal.pyInt 1]).length / ((10 + 9 - 1) / 9) + 1 :=
  (rollover_file_count
    { filename := { pre := "f", post := "" },
      approx_max_file_size_bytes := 10,
      export_format := { file_format := "json" } }
    [{ name := "a", type_code := 3, null_ok := false }]
    (List.replicate 3 [PyVal.pyInt 1])
    (List.replicate 3 "\x7b\"a\": 1\x7d\n") 9
    [("f0", ["\x7b\"a\": 1\x7d\n", "\x7b\"a\": 1\x7d\n"]),
     ("f1", ["\x7b\"a\": 1\x7d\n"])]
    rfl (by decide) (by decide) (by decide) (by decide) (by decide)).1

end MySqlToGcs
